import Mathlib

/-!
Verification of the job lifecycle manager of the `mmlbeast` service.

The source of the repository consists of `app/include/application.hpp`
(the `Query` record and the `Application` class declarations) and the
HTTP tools translation unit (`handle_get_request` and friends).  The
bodies of the `Application` member functions are not part of the source
tree; where a definition below depends on such a body it is modelled
from the specification, and its doc comment says so.
-/

/-- The five job states of the specification state machine (§4.2).
Modelled from the spec: the source `Query` record carries three boolean
flags (`completed`, `running`, `canceled`); the derivation of a status
from them lives in the missing implementation, so the status is embedded
directly as the five-state machine the spec describes. -/
inductive Status where
  | Queued
  | Running
  | Completed
  | Canceled
  | Failed
deriving DecidableEq, Repr

/-- A state is terminal when the machine never leaves it. -/
def Status.isTerminal : Status → Bool
  | .Completed => true
  | .Canceled => true
  | .Failed => true
  | _ => false

/-- The legal edges of the state machine: `Queued → {Running, Canceled}`,
`Running → {Canceled, Completed, Failed}`. -/
def legalEdge : Status → Status → Bool
  | .Queued, .Running => true
  | .Queued, .Canceled => true
  | .Running, .Canceled => true
  | .Running, .Completed => true
  | .Running, .Failed => true
  | _, _ => false

/-- Embeds `struct Query` of `application.hpp`: identifier, prompt, full
response, accumulated partial responses and the cancellation flag
(`std::atomic<bool> canceled`).  The `status` field stands for the
status derived from the source's `completed`/`running` flags, and
`error_message` is modelled from the spec ("error message (set only when
Failed)"); both derivation and storage live in the missing
implementation.  `last_context` embeds the opaque `ollama::response
last_context` continuation token. -/
structure Query where
  id : String
  prompt : String
  response : String
  partial_responses : List String
  canceled : Bool
  status : Status
  error_message : String
  last_context : Option Nat
deriving DecidableEq, Repr

/-- Association-list lookup keyed by pointer value, used for the shared
`Query` records (`std::shared_ptr<Query>` is embedded as a `Nat` pointer
into this store). -/
def lookupPtr : List (Nat × Query) → Nat → Option Query
  | [], _ => none
  | (k, v) :: rest, p => if k = p then some v else lookupPtr rest p

/-- Association-list lookup keyed by query identifier, embedding
`std::unordered_map<std::string, std::shared_ptr<Query>> query_map_`. -/
def lookupId : List (String × Nat) → String → Option Nat
  | [], _ => none
  | (k, v) :: rest, i => if k = i then some v else lookupId rest i

/-- In-place update of the shared record a pointer designates (a write
through the `shared_ptr`). -/
def setQuery (h : List (Nat × Query)) (p : Nat) (q : Query) : List (Nat × Query) :=
  h.map (fun e => if e.1 = p then (p, q) else e)

/-- The state of the `Application` class: the store of shared `Query`
records, `query_queue_` (a `std::queue<std::shared_ptr<Query>>`,
embedded as the list of pointers, front first), `query_map_` (identifier
to shared pointer), and the allocation counters.  Modelled from the
spec: identifier generation ("a fresh unique identifier never previously
issued") is embedded as the counter `next_id`. -/
structure Application where
  heap : List (Nat × Query)
  query_queue_ : List Nat
  query_map_ : List (String × Nat)
  next_ptr : Nat
  next_id : Nat
deriving Repr

/-- The freshly constructed application: no queries. -/
def Application.init : Application :=
  { heap := [], query_queue_ := [], query_map_ := [], next_ptr := 0, next_id := 0 }

/-- Modelled from the spec: the unique query identifier allocated for
the `n`-th submission (the generation code is in the missing
implementation; the spec only requires the identifiers to be
collision-free strings). -/
def mkId (n : Nat) : String :=
  String.mk ('q' :: (Nat.digits 10 n).map Nat.digitChar)

/-- A fresh `Query` record as `add_query` creates it: state Queued,
empty response, no partial responses, cancellation flag clear. -/
def newQuery (id prompt : String) (ctx : Option Nat) : Query :=
  { id := id, prompt := prompt, response := "", partial_responses := [],
    canceled := false, status := .Queued, error_message := "", last_context := ctx }

/-- Modelled from the spec: `Application::add_query` ("allocates a fresh
unique identifier never previously issued, creates a Job in state
Queued, inserts it into the registry, appends its identifier to the
queue tail").  The body is absent from the source tree; the member
types of `application.hpp` force the queue entry to be the shared
pointer to the record, so the queue receives the pointer, not the
identifier. -/
def add_query (s : Application) (prompt : String) (ctx : Option Nat) :
    String × Application :=
  let id := mkId s.next_id
  let p := s.next_ptr
  (id,
   { heap := (p, newQuery id prompt ctx) :: s.heap,
     query_queue_ := s.query_queue_ ++ [p],
     query_map_ := (id, p) :: s.query_map_,
     next_ptr := p + 1,
     next_id := s.next_id + 1 })

/-- Modelled from the spec: `Application::cancel_query` ("sets a
cancellation request on the job, idempotently, regardless of current
status"); an unknown identifier is a no-op. -/
def cancel_query (s : Application) (id : String) : Application :=
  match lookupId s.query_map_ id with
  | none => s
  | some p =>
    match lookupPtr s.heap p with
    | none => s
    | some q => { s with heap := setQuery s.heap p { q with canceled := true } }

/-- The observable events of the lifecycle manager: the producer
operations (`submit`, `cancel`) and the worker-loop actions of §4.2.
`contact` is the worker dequeuing a non-canceled job, marking it Running
and opening the backend call; `chunk` is the arrival of a partial
response with the cancellation flag clear; `observeCancel` is the worker
observing the flag at a chunk boundary; `complete` and `fail` are the
backend's terminal signals. -/
inductive Label where
  | submit (prompt : String) (ctx : Option Nat)
  | cancel (id : String)
  | skip (p : Nat)
  | contact (p : Nat)
  | chunk (p : Nat) (c : String)
  | observeCancel (p : Nat)
  | complete (p : Nat) (ctx : Nat)
  | fail (p : Nat) (msg : String)

/-- Modelled from the spec: the small-step semantics of the lifecycle
manager (§4.1 and the worker-loop algorithm of §4.2), one labelled step
per event, interleaving producer calls with the worker's actions.  The
`Running`/`Queued` guards encode the worker's control flow (it only
consumes chunks of the job it dequeued); the `canceled` guards are the
cancellation-flag checks of steps 2 and 4. -/
inductive Step : Application → Label → Application → Prop where
  | submit {s prompt ctx} :
      Step s (.submit prompt ctx) (add_query s prompt ctx).2
  | cancel {s id} :
      Step s (.cancel id) (cancel_query s id)
  | skip {s p rest q} :
      s.query_queue_ = p :: rest →
      lookupPtr s.heap p = some q →
      q.status = .Queued →
      q.canceled = true →
      Step s (.skip p)
        { s with query_queue_ := rest,
                 heap := setQuery s.heap p { q with status := .Canceled } }
  | contact {s p rest q} :
      s.query_queue_ = p :: rest →
      lookupPtr s.heap p = some q →
      q.status = .Queued →
      q.canceled = false →
      Step s (.contact p)
        { s with query_queue_ := rest,
                 heap := setQuery s.heap p { q with status := .Running } }
  | chunk {s p q c} :
      lookupPtr s.heap p = some q →
      q.status = .Running →
      q.canceled = false →
      Step s (.chunk p c)
        { s with heap := (setQuery s.heap p
            { q with response := q.response ++ c,
                     partial_responses := q.partial_responses ++ [c] }) }
  | observeCancel {s p q} :
      lookupPtr s.heap p = some q →
      q.status = .Running →
      q.canceled = true →
      Step s (.observeCancel p)
        { s with heap := setQuery s.heap p { q with status := .Canceled } }
  | complete {s p q ctx} :
      lookupPtr s.heap p = some q →
      q.status = .Running →
      Step s (.complete p ctx)
        { s with heap := (setQuery s.heap p
            { q with status := .Completed, last_context := some ctx }) }
  | fail {s p q msg} :
      lookupPtr s.heap p = some q →
      q.status = .Running →
      Step s (.fail p msg)
        { s with heap := (setQuery s.heap p
            { q with status := .Failed,
                     error_message := "LLM backend error: " ++ msg }) }

/-- A finite trace of steps with its label sequence. -/
inductive Steps : Application → List Label → Application → Prop where
  | refl {s} : Steps s [] s
  | cons {s l s' ls s''} : Step s l s' → Steps s' ls s'' → Steps s (l :: ls) s''

/-- The states reachable from the freshly constructed application. -/
inductive Reachable : Application → Prop where
  | init : Reachable Application.init
  | step {s l s'} : Reachable s → Step s l s' → Reachable s'

/-- The registry/queue invariant of the lifecycle manager, preserved by
every step: pointer and identifier allocation are fresh and duplicate
free, the queue only holds pointers registered in `query_map_`, queued
jobs are in state Queued with empty output, and the accumulated
response is always the concatenation of the partial chunks. -/
structure AppInv (s : Application) : Prop where
  heap_keys_lt : ∀ k ∈ s.heap.map Prod.fst, k < s.next_ptr
  heap_keys_nodup : (s.heap.map Prod.fst).Nodup
  map_ids : ∀ e ∈ s.query_map_, ∃ k, k < s.next_id ∧ e.1 = mkId k
  map_keys_nodup : (s.query_map_.map Prod.fst).Nodup
  map_vals_nodup : (s.query_map_.map Prod.snd).Nodup
  map_vals_heap : ∀ e ∈ s.query_map_, (lookupPtr s.heap e.2).isSome
  map_id_field : ∀ e ∈ s.query_map_, ∀ q, lookupPtr s.heap e.2 = some q → q.id = e.1
  queue_in_map : ∀ p ∈ s.query_queue_, ∃ id, (id, p) ∈ s.query_map_
  queue_nodup : s.query_queue_.Nodup
  queue_queued : ∀ p ∈ s.query_queue_, ∀ q, lookupPtr s.heap p = some q → q.status = .Queued
  queued_in_queue : ∀ p q, lookupPtr s.heap p = some q → q.status = .Queued →
    p ∈ s.query_queue_
  queued_clean : ∀ p q, lookupPtr s.heap p = some q → q.status = .Queued →
    q.response = "" ∧ q.partial_responses = []
  response_join : ∀ p q, lookupPtr s.heap p = some q →
    q.response = String.join q.partial_responses

/-- A job whose cancellation was requested while it was still Queued:
flag set, not yet Running, no output accumulated. -/
def CancelPending (s : Application) (p : Nat) : Prop :=
  ∃ q, lookupPtr s.heap p = some q ∧ q.canceled = true ∧
    (q.status = .Queued ∨ q.status = .Canceled) ∧
    q.response = "" ∧ q.partial_responses = []

/-- Appending one backend chunk to a job: the chunk goes to both the
ordered chunk sequence and the accumulated response (§4.2 step 4). -/
def appendChunk (q : Query) (c : String) : Query :=
  { q with response := q.response ++ c,
           partial_responses := q.partial_responses ++ [c] }

/-- Modelled from the spec: the outcome of one backend streaming call —
either the stream ends normally after its chunks (with a terminal
continuation token), or it delivers some chunks and then reports an
error. -/
inductive BackendResult where
  | success (chunks : List String) (ctx : Nat)
  | failure (chunks : List String) (msg : String)

/-- Modelled from the spec: `Application::run_query` processing one
Running job against a backend outcome (§4.2 steps 3-6).  `cancelAt`
is the chunk boundary at which the worker first observes the
cancellation flag (`none` when the flag is never observed): at that
boundary it stops consuming, keeps the chunks already appended and
marks Canceled; otherwise all chunks are appended and the job ends
Completed (persisting the continuation token) or Failed (storing a
human-readable error message). -/
def run_query (q : Query) (b : BackendResult) (cancelAt : Option Nat) : Query :=
  match b with
  | .success chunks ctx =>
    match cancelAt with
    | some k =>
      if k < chunks.length then
        { (chunks.take k).foldl appendChunk q with status := .Canceled, canceled := true }
      else
        { chunks.foldl appendChunk q with status := .Completed, last_context := some ctx }
    | none =>
      { chunks.foldl appendChunk q with status := .Completed, last_context := some ctx }
  | .failure chunks msg =>
    match cancelAt with
    | some k =>
      if k < chunks.length then
        { (chunks.take k).foldl appendChunk q with status := .Canceled, canceled := true }
      else
        { chunks.foldl appendChunk q with
            status := .Failed, error_message := "LLM backend error: " ++ msg }
    | none =>
      { chunks.foldl appendChunk q with
          status := .Failed, error_message := "LLM backend error: " ++ msg }

/-- One iteration of the worker loop on the job a pointer designates
(§4.2 steps 1-2 plus `run_query`): a job whose cancellation flag is
already set is marked Canceled without contacting the backend;
otherwise it is marked Running and processed.  The boolean records
whether the backend was contacted. -/
def process_one (h : List (Nat × Query)) (p : Nat) (behav : Nat → BackendResult)
    (cancelAt : Nat → Option Nat) : List (Nat × Query) × Bool :=
  match lookupPtr h p with
  | none => (h, false)
  | some q =>
    if q.canceled then (setQuery h p { q with status := .Canceled }, false)
    else (setQuery h p (run_query { q with status := .Running } (behav p) (cancelAt p)), true)

/-- Modelled from the spec: `Application::process_queries` draining the
queue in FIFO order, one job at a time; returns the final record store
and the pointers whose jobs contacted the backend, in contact order. -/
def process_queries (h : List (Nat × Query)) (ps : List Nat) (behav : Nat → BackendResult)
    (cancelAt : Nat → Option Nat) : List (Nat × Query) × List Nat :=
  match ps with
  | [] => (h, [])
  | p :: rest =>
    let r := process_one h p behav cancelAt
    let rr := process_queries r.1 rest behav cancelAt
    (rr.1, (if r.2 then [p] else []) ++ rr.2)

/-- Whether the worker would contact the backend for this pointer:
its record exists and its cancellation flag is clear. -/
def contacted (h : List (Nat × Query)) (p : Nat) : Bool :=
  match lookupPtr h p with
  | some q => !q.canceled
  | none => false

/-- A sequence of submissions against a fresh application. -/
def submitAll (prompts : List String) : Application :=
  prompts.foldl (fun s pr => (add_query s pr none).2) Application.init

/-- A recorded metric sample: name and numeric value (`double` in the
source, embedded as an exact rational). -/
structure MetricSample where
  metric_name : String
  metric_value : ℚ
deriving DecidableEq, Repr

/-- Embeds `struct MetricStatistic` of `application.hpp`. -/
structure MetricStatistic where
  metric_name : String
  average_value : ℚ
  min_value : ℚ
  max_value : ℚ
  total_value : ℚ
  count : Nat
deriving DecidableEq, Repr

/-- Modelled from the spec: `Application::log_performance_metric` — a
thread-safe append of one named sample (the body, which also persists
to SQLite, is absent from the source tree). -/
def log_performance_metric (samples : List MetricSample) (n : String) (v : ℚ) :
    List MetricSample :=
  samples ++ [⟨n, v⟩]

/-- The values recorded for one metric name, in recording order. -/
def valuesFor (samples : List MetricSample) (n : String) : List ℚ :=
  (samples.filter (fun s => s.metric_name == n)).map MetricSample.metric_value

/-- Modelled from the spec: the per-name entry of
`Application::get_performance_statistics` — count, sum, min, max and
average over all samples recorded for that name since process start
(`none` when the name was never recorded). -/
def get_performance_statistics (samples : List MetricSample) (n : String) :
    Option MetricStatistic :=
  match valuesFor samples n with
  | [] => none
  | v :: vs =>
    some { metric_name := n,
           average_value := (v :: vs).sum / ((vs.length + 1 : Nat) : ℚ),
           min_value := vs.foldl min v,
           max_value := vs.foldl max v,
           total_value := (v :: vs).sum,
           count := vs.length + 1 }

/-- The read-only view `get_status` returns (§4.1): id, status,
response-so-far and the error message when Failed. -/
structure QuerySnapshot where
  id : String
  status : Status
  response_so_far : String
  error_message : Option String
deriving DecidableEq, Repr

/-- Modelled from the spec: the snapshot-returning core of
`Application::get_query_status` — `none` is the `NotFound` failure for
an unknown identifier; otherwise a read-only view whose response text
is the concatenation of the partial chunks, or the final response if
Completed, with the error message when Failed.  It is a pure function
of the state: no job state is mutated. -/
def get_status (s : Application) (query_id : String) : Option QuerySnapshot :=
  match lookupId s.query_map_ query_id with
  | none => none
  | some p =>
    match lookupPtr s.heap p with
    | none => none
    | some q =>
      some { id := q.id,
             status := q.status,
             response_so_far :=
               if q.status = .Completed then q.response
               else String.join q.partial_responses,
             error_message :=
               if q.status = .Failed then some q.error_message else none }

/-- The serialized status word for each state. -/
def Status.describe : Status → String
  | .Queued => "queued"
  | .Running => "running"
  | .Completed => "completed"
  | .Canceled => "canceled"
  | .Failed => "failed"

/-- Modelled from the spec: the string `Application::get_query_status`
hands to the transport (the header declares it returns a JSON string
for every identifier); an unknown identifier is serialized as a
not-found message rather than raised. -/
def get_query_status (s : Application) (query_id : String) : String :=
  match get_status s query_id with
  | none => "Query ID not found"
  | some snap => Status.describe snap.status ++ ": " ++ snap.response_so_far

/-- The response bodies the embedded GET handler can produce. -/
inductive HttpBody where
  | statusJson (query_id : String) (status : String)
  | fileContent (path : String)
  | notFoundText
deriving DecidableEq, Repr

/-- An HTTP response: numeric status code and body. -/
structure HttpResponse where
  status_code : Nat
  body : HttpBody
deriving DecidableEq, Repr

/-- Embeds `handle_get_request` of the HTTP tools unit: a GET whose
target begins with "/query_status/" is answered 200 OK with a JSON
body holding the extracted identifier (`target.substr(14)`) and the
status string obtained from `Application::get_query_status`, with no
branch on whether the identifier is known; any other target is served
from the filesystem (embedded as an oracle from paths to existence),
404 when the file is missing. -/
def queryStatusRoute : String := "/query_status/"

/-- The C++ route test `target.rfind("/query_status/", 0) == 0`,
embedded on the character data of the target. -/
def isQueryStatusTarget (target : String) : Bool :=
  queryStatusRoute.data.isPrefixOf target.data

/-- The C++ extraction `target.substr(14)` (14 is the length of
"/query_status/"), embedded on the character data of the target. -/
def extractQueryId (target : String) : String :=
  String.mk (target.data.drop 14)

def handle_get_request (s : Application) (target : String)
    (fileExists : String → Bool) : HttpResponse :=
  if isQueryStatusTarget target then
    { status_code := 200,
      body := .statusJson (extractQueryId target)
                (get_query_status s (extractQueryId target)) }
  else if fileExists target then
    { status_code := 200, body := .fileContent target }
  else
    { status_code := 404, body := .notFoundText }

/-- The number of owning references to the record a pointer designates:
its `shared_ptr` copies held in `query_map_` plus those held in
`query_queue_`. -/
def owningRefs (s : Application) (p : Nat) : Nat :=
  (s.query_map_.filter (fun e => e.2 == p)).length + s.query_queue_.count p

/-- The property the spec claims, stated in the spec's words over the
embedded state: the registry is the sole owner of every job record, the
queue holding no owning reference (at most the registry's single
`shared_ptr` per record). -/
def RegistrySoleOwner (s : Application) : Prop :=
  ∀ p q, lookupPtr s.heap p = some q → owningRefs s p ≤ 1

/-- Example: the application after one submission. -/
def exApp1 : Application := (add_query Application.init "hi" none).2

/-- The record of that first job. -/
def exQ0 : Query := newQuery (mkId 0) "hi" none

/-- The same job marked Running by the worker. -/
def exQ0run : Query := { exQ0 with status := Status.Running }

/-- The application after the worker dequeued the job and opened the
backend call. -/
def exApp1run : Application :=
  { exApp1 with query_queue_ := [], heap := setQuery exApp1.heap 0 exQ0run }

/-- The first job with its cancellation flag set while still Queued. -/
def exQ0c : Query := { exQ0 with canceled := true }

/-- The application after `cancel_query` on the still-queued job. -/
def exApp1c : Application :=
  { exApp1 with heap := setQuery exApp1.heap 0 exQ0c }

/-- The canceled-before-dequeue job after the worker skipped it. -/
def exQ0cSkip : Query := { exQ0c with status := Status.Canceled }

/-- The application after the worker skipped the canceled job. -/
def exApp1cSkip : Application :=
  { exApp1c with query_queue_ := [],
                 heap := setQuery exApp1c.heap 0 exQ0cSkip }

/-- The Running job after one chunk "c1" arrived. -/
def exQ0chunk : Query :=
  { exQ0run with response := exQ0run.response ++ "c1",
                 partial_responses := exQ0run.partial_responses ++ ["c1"] }

/-- The application after that chunk was appended. -/
def exApp1chunk : Application :=
  { exApp1run with heap := setQuery exApp1run.heap 0 exQ0chunk }

/-- The Running job with its cancellation flag set mid-stream. -/
def exQ0runC : Query := { exQ0run with canceled := true }

/-- The application holding that job. -/
def exApp1runC : Application :=
  { exApp1run with heap := setQuery exApp1run.heap 0 exQ0runC }

/-- That job once the worker observed the flag at a chunk boundary. -/
def exQ0obsC : Query := { exQ0runC with status := Status.Canceled }

/-- The application after the observation. -/
def exApp1obsC : Application :=
  { exApp1runC with heap := setQuery exApp1runC.heap 0 exQ0obsC }

/-- Example: three prompts submitted in order. -/
def exPrompts3 : List String := ["p1", "p2", "p3"]

/-- The application holding the three queued jobs. -/
def exApp3 : Application := submitAll exPrompts3

/-- A backend that answers every job with one chunk "ok". -/
def exBehavOk : Nat → BackendResult := fun _ => .success ["ok"] 7

/-- A backend that errors on job 1 and answers the others normally. -/
def exBehavMix : Nat → BackendResult :=
  fun p => if p = 1 then .failure [] "boom" else .success ["ok"] 7

/-- No cancellation is ever observed. -/
def exNoCancel : Nat → Option Nat := fun _ => none

/-- The record store after draining the three jobs against the
failing-middle backend. -/
def exFinalMix : List (Nat × Query) :=
  (process_queries exApp3.heap exApp3.query_queue_ exBehavMix exNoCancel).1

/-- The record store after draining against the all-success backend. -/
def exFinalOk : List (Nat × Query) :=
  (process_queries exApp3.heap exApp3.query_queue_ exBehavOk exNoCancel).1

/-- The status of the record a pointer designates. -/
def statusAt (h : List (Nat × Query)) (p : Nat) : Option Status :=
  (lookupPtr h p).map Query.status

/-- The accumulated response of the record a pointer designates. -/
def responseAt (h : List (Nat × Query)) (p : Nat) : Option String :=
  (lookupPtr h p).map Query.response

/-- The error message of the record a pointer designates. -/
def errorAt (h : List (Nat × Query)) (p : Nat) : Option String :=
  (lookupPtr h p).map Query.error_message

/-- The failed job as the worker records it. -/
def exQ0fail : Query :=
  { exQ0run with status := Status.Failed,
                 error_message := "LLM backend error: " ++ "boom" }

/-- The application after the backend reported an error for job 0. -/
def exApp1fail : Application :=
  { exApp1run with heap := setQuery exApp1run.heap 0 exQ0fail }

theorem digitChar_inj_lt10 : ∀ x < 10, ∀ y < 10,
    Nat.digitChar x = Nat.digitChar y → x = y := by decide

theorem map_digitChar_inj : ∀ (l1 l2 : List Nat),
    (∀ x ∈ l1, x < 10) → (∀ x ∈ l2, x < 10) →
    l1.map Nat.digitChar = l2.map Nat.digitChar → l1 = l2 := by
  intro l1
  induction l1 with
  | nil =>
    intro l2 _ _ h
    cases l2 with
    | nil => rfl
    | cons b bs => simp at h
  | cons a as ih =>
    intro l2 h1 h2 h
    cases l2 with
    | nil => simp at h
    | cons b bs =>
      simp only [List.map_cons, List.cons.injEq] at h
      have ha : a < 10 := h1 a (by simp)
      have hb : b < 10 := h2 b (by simp)
      have hab : a = b := digitChar_inj_lt10 a ha b hb h.1
      have htail : as = bs := by
        refine ih bs (fun x hx => h1 x (by simp [hx])) (fun x hx => h2 x (by simp [hx])) h.2
      rw [hab, htail]

theorem mkId_injective : Function.Injective mkId := by
  intro a b h
  have hdata : ('q' :: (Nat.digits 10 a).map Nat.digitChar)
      = ('q' :: (Nat.digits 10 b).map Nat.digitChar) := by
    have := congrArg String.data h
    simpa [mkId] using this
  have hmaps : (Nat.digits 10 a).map Nat.digitChar = (Nat.digits 10 b).map Nat.digitChar := by
    exact (List.cons.injEq _ _ _ _ ▸ hdata).2
  have hdig : Nat.digits 10 a = Nat.digits 10 b := by
    refine map_digitChar_inj _ _ ?_ ?_ hmaps
    · intro x hx
      exact Nat.digits_lt_base (by norm_num) hx
    · intro x hx
      exact Nat.digits_lt_base (by norm_num) hx
  have := congrArg (Nat.ofDigits 10) hdig
  simpa [Nat.ofDigits_digits] using this

theorem lookupPtr_cons_ne {h : List (Nat × Query)} {k p : Nat} {v : Query}
    (hne : k ≠ p) : lookupPtr ((k, v) :: h) p = lookupPtr h p := by
  simp [lookupPtr, hne]

theorem lookupPtr_mem {h : List (Nat × Query)} {p : Nat} {q : Query}
    (hl : lookupPtr h p = some q) : (p, q) ∈ h := by
  induction h with
  | nil => simp [lookupPtr] at hl
  | cons e rest ih =>
    by_cases hk : e.1 = p
    · obtain ⟨k, v⟩ := e
      simp only at hk
      subst hk
      simp [lookupPtr] at hl
      simp [hl]
    · obtain ⟨k, v⟩ := e
      simp only at hk
      rw [show ((k, v) :: rest : List (Nat × Query)) = (k, v) :: rest from rfl] at hl
      rw [lookupPtr_cons_ne hk] at hl
      exact List.mem_cons_of_mem _ (ih hl)

theorem lookupPtr_isSome_of_mem {h : List (Nat × Query)} {p : Nat} {q : Query}
    (hm : (p, q) ∈ h) : (lookupPtr h p).isSome := by
  induction h with
  | nil => simp at hm
  | cons e rest ih =>
    by_cases hk : e.1 = p
    · obtain ⟨k, v⟩ := e
      simp only at hk
      subst hk
      simp [lookupPtr]
    · obtain ⟨k, v⟩ := e
      simp only at hk
      rw [lookupPtr_cons_ne hk]
      rcases List.mem_cons.1 hm with hq | hq
      · exact absurd (congrArg Prod.fst hq).symm hk
      · exact ih hq

theorem setQuery_keys (h : List (Nat × Query)) (p : Nat) (q : Query) :
    (setQuery h p q).map Prod.fst = h.map Prod.fst := by
  induction h with
  | nil => rfl
  | cons e rest ih =>
    obtain ⟨k, v⟩ := e
    by_cases hk : k = p
    · simp only [setQuery, List.map_cons] at ih ⊢
      simp only [hk, if_pos rfl]
      simpa [setQuery] using ih
    · simp only [setQuery, List.map_cons] at ih ⊢
      simp only [if_neg hk]
      simpa [setQuery] using ih

theorem lookupPtr_setQuery_ne {h : List (Nat × Query)} {p p' : Nat} (q : Query)
    (hne : p' ≠ p) : lookupPtr (setQuery h p q) p' = lookupPtr h p' := by
  induction h with
  | nil => rfl
  | cons e rest ih =>
    obtain ⟨k, v⟩ := e
    by_cases hk : k = p
    · subst hk
      have hkp' : ¬(k = p') := fun hc => hne hc.symm
      simp only [setQuery, List.map_cons]
      rw [if_pos trivial]
      simp only [lookupPtr, if_neg hkp']
      simpa [setQuery] using ih
    · simp only [setQuery, List.map_cons, if_neg hk]
      by_cases hk' : k = p'
      · simp [lookupPtr, hk']
      · simp only [lookupPtr, if_neg hk']
        simpa [setQuery] using ih

theorem lookupPtr_setQuery_self {h : List (Nat × Query)} {p : Nat} {q0 : Query}
    (q : Query) (hl : lookupPtr h p = some q0) :
    lookupPtr (setQuery h p q) p = some q := by
  induction h with
  | nil => simp [lookupPtr] at hl
  | cons e rest ih =>
    obtain ⟨k, v⟩ := e
    by_cases hk : k = p
    · simp only [setQuery, List.map_cons, if_pos hk]
      simp [lookupPtr]
    · simp only [setQuery, List.map_cons, if_neg hk]
      rw [lookupPtr_cons_ne hk] at hl
      simp only [lookupPtr, if_neg hk]
      simpa [setQuery] using ih hl

theorem mem_setQuery {h : List (Nat × Query)} {p : Nat} {x : Query} {e' : Nat × Query}
    (hm : e' ∈ setQuery h p x) :
    (∃ e ∈ h, e.1 = p ∧ e' = (p, x)) ∨ (e' ∈ h ∧ e'.1 ≠ p) := by
  simp only [setQuery, List.mem_map] at hm
  obtain ⟨e, he, heq⟩ := hm
  by_cases hk : e.1 = p
  · left
    exact ⟨e, he, hk, by simpa [hk] using heq.symm⟩
  · right
    rw [if_neg hk] at heq
    subst heq
    exact ⟨he, hk⟩

theorem lookupPtr_setQuery_cases {h : List (Nat × Query)} {p p' : Nat} {x q q'' : Query}
    (horig : lookupPtr h p = some q)
    (hl : lookupPtr (setQuery h p x) p' = some q'') :
    (p' = p ∧ q'' = x) ∨ (p' ≠ p ∧ lookupPtr h p' = some q'') := by
  by_cases hp : p' = p
  · subst hp
    rw [lookupPtr_setQuery_self x horig] at hl
    exact Or.inl ⟨rfl, (Option.some.injEq _ _ ▸ hl).symm⟩
  · rw [lookupPtr_setQuery_ne x hp] at hl
    exact Or.inr ⟨hp, hl⟩

theorem AppInv.init : AppInv Application.init := by
  constructor <;> simp [Application.init, lookupPtr]

theorem AppInv.mem_heap_lt {s : Application} (hs : AppInv s) {p : Nat} {q : Query}
    (hl : lookupPtr s.heap p = some q) : p < s.next_ptr :=
  hs.heap_keys_lt p (List.mem_map.2 ⟨(p, q), lookupPtr_mem hl, rfl⟩)

theorem AppInv.queue_mem_lt {s : Application} (hs : AppInv s) {p : Nat}
    (hp : p ∈ s.query_queue_) : p < s.next_ptr := by
  obtain ⟨id, hid⟩ := hs.queue_in_map p hp
  have hsome := hs.map_vals_heap (id, p) hid
  obtain ⟨q, hq⟩ := Option.isSome_iff_exists.1 hsome
  exact hs.mem_heap_lt hq

theorem join_concat (l : List String) (c : String) :
    String.join (l ++ [c]) = String.join l ++ c := by
  simp [String.join, List.foldl_append]

theorem appInv_add_query {s : Application} (hs : AppInv s)
    (prompt : String) (ctx : Option Nat) : AppInv (add_query s prompt ctx).2 := by
  refine ⟨?_, ?_, ?_, ?_, ?_, ?_, ?_, ?_, ?_, ?_, ?_, ?_, ?_⟩
  · intro k hk
    simp only [add_query, List.map_cons, List.mem_cons] at hk ⊢
    rcases hk with hk | hk
    · simp [hk]
    · exact Nat.lt_succ_of_lt (hs.heap_keys_lt k hk)
  · simp only [add_query, List.map_cons, List.nodup_cons]
    refine ⟨fun hm => ?_, hs.heap_keys_nodup⟩
    exact absurd (hs.heap_keys_lt _ hm) (lt_irrefl _)
  · intro e he
    simp only [add_query, List.mem_cons] at he
    rcases he with he | he
    · exact ⟨s.next_id, Nat.lt_succ_self _, by simp [he]⟩
    · obtain ⟨k, hk, hek⟩ := hs.map_ids e he
      exact ⟨k, Nat.lt_succ_of_lt hk, hek⟩
  · simp only [add_query, List.map_cons, List.nodup_cons]
    refine ⟨fun hm => ?_, hs.map_keys_nodup⟩
    obtain ⟨e, he, heq⟩ := List.mem_map.1 hm
    obtain ⟨k, hk, hek⟩ := hs.map_ids e he
    have : mkId s.next_id = mkId k := by rw [← heq, hek]
    exact absurd (mkId_injective this ▸ hk) (lt_irrefl _)
  · simp only [add_query, List.map_cons, List.nodup_cons]
    refine ⟨fun hm => ?_, hs.map_vals_nodup⟩
    obtain ⟨e, he, heq⟩ := List.mem_map.1 hm
    have hsome := hs.map_vals_heap e he
    obtain ⟨qe, hqe⟩ := Option.isSome_iff_exists.1 hsome
    have := hs.mem_heap_lt hqe
    rw [heq] at this
    exact absurd this (lt_irrefl _)
  · intro e he
    simp only [add_query, List.mem_cons] at he ⊢
    rcases he with he | he
    · subst he
      simp [lookupPtr]
    · have hsome := hs.map_vals_heap e he
      obtain ⟨qe, hqe⟩ := Option.isSome_iff_exists.1 hsome
      have hlt := hs.mem_heap_lt hqe
      rw [lookupPtr_cons_ne (Nat.ne_of_gt hlt)]
      simp [hqe]
  · intro e he q hq
    simp only [add_query, List.mem_cons] at he hq
    rcases he with he | he
    · subst he
      simp only [lookupPtr, if_pos rfl] at hq
      cases hq
      rfl
    · have hsome := hs.map_vals_heap e he
      obtain ⟨qe, hqe⟩ := Option.isSome_iff_exists.1 hsome
      have hlt := hs.mem_heap_lt hqe
      rw [lookupPtr_cons_ne (Nat.ne_of_gt hlt)] at hq
      exact hs.map_id_field e he q hq
  · intro p hp
    simp only [add_query, List.mem_append, List.mem_singleton] at hp
    rcases hp with hp | hp
    · obtain ⟨id, hid⟩ := hs.queue_in_map p hp
      exact ⟨id, List.mem_cons_of_mem _ hid⟩
    · exact ⟨mkId s.next_id, by simp [add_query, hp]⟩
  · simp only [add_query]
    rw [List.nodup_append]
    refine ⟨hs.queue_nodup, List.nodup_singleton _, ?_⟩
    intro a ha hb
    simp only [List.mem_singleton] at hb
    subst hb
    exact absurd (hs.queue_mem_lt ha) (lt_irrefl _)
  · intro p hp q hq
    simp only [add_query, List.mem_append, List.mem_singleton] at hp hq
    rcases hp with hp | hp
    · have hlt := hs.queue_mem_lt hp
      rw [lookupPtr_cons_ne (Nat.ne_of_gt hlt)] at hq
      exact hs.queue_queued p hp q hq
    · subst hp
      simp only [lookupPtr, if_pos rfl] at hq
      cases hq
      rfl
  · intro p q hq hstat
    simp only [add_query, List.mem_append, List.mem_singleton] at hq ⊢
    by_cases hp : s.next_ptr = p
    · exact Or.inr hp.symm
    · rw [lookupPtr_cons_ne hp] at hq
      exact Or.inl (hs.queued_in_queue p q hq hstat)
  · intro p q hq hstat
    simp only [add_query] at hq
    by_cases hp : s.next_ptr = p
    · subst hp
      simp only [lookupPtr, if_pos rfl] at hq
      cases hq
      exact ⟨rfl, rfl⟩
    · rw [lookupPtr_cons_ne hp] at hq
      exact hs.queued_clean p q hq hstat
  · intro p q hq
    simp only [add_query] at hq
    by_cases hp : s.next_ptr = p
    · subst hp
      simp only [lookupPtr, if_pos rfl] at hq
      cases hq
      simp [newQuery, String.join]
    · rw [lookupPtr_cons_ne hp] at hq
      exact hs.response_join p q hq

theorem appInv_set_record {s : Application} (hs : AppInv s) {p : Nat} {q x : Query}
    (hq : lookupPtr s.heap p = some q)
    (hid : x.id = q.id)
    (hcancel : x.status = q.status ∧ x.response = q.response ∧
        x.partial_responses = q.partial_responses) :
    AppInv { s with heap := setQuery s.heap p x } := by
  obtain ⟨hst, hresp, hpart⟩ := hcancel
  refine ⟨?_, ?_, hs.map_ids, hs.map_keys_nodup, hs.map_vals_nodup, ?_, ?_,
      hs.queue_in_map, hs.queue_nodup, ?_, ?_, ?_, ?_⟩
  · intro k hk
    rw [setQuery_keys] at hk
    exact hs.heap_keys_lt k hk
  · rw [setQuery_keys]
    exact hs.heap_keys_nodup
  · intro e he
    by_cases hp : e.2 = p
    · rw [hp, lookupPtr_setQuery_self x hq]
      rfl
    · rw [lookupPtr_setQuery_ne x hp]
      exact hs.map_vals_heap e he
  · intro e he q'' hq''
    by_cases hp : e.2 = p
    · rw [hp] at hq''
      rw [lookupPtr_setQuery_self x hq] at hq''
      cases hq''
      rw [hid]
      exact hs.map_id_field e he q (hp ▸ hq)
    · rw [lookupPtr_setQuery_ne x hp] at hq''
      exact hs.map_id_field e he q'' hq''
  · intro p' hp' q'' hq''
    rcases lookupPtr_setQuery_cases hq hq'' with ⟨hpp, hqx⟩ | ⟨hpp, hold⟩
    · subst hpp
      rw [hqx, hst]
      exact hs.queue_queued p' hp' q hq
    · exact hs.queue_queued p' hp' q'' hold
  · intro p' q'' hq'' hstat
    rcases lookupPtr_setQuery_cases hq hq'' with ⟨hpp, hqx⟩ | ⟨hpp, hold⟩
    · subst hpp
      rw [hqx, hst] at hstat
      exact hs.queued_in_queue p' q hq hstat
    · exact hs.queued_in_queue p' q'' hold hstat
  · intro p' q'' hq'' hstat
    rcases lookupPtr_setQuery_cases hq hq'' with ⟨hpp, hqx⟩ | ⟨hpp, hold⟩
    · subst hpp
      rw [hqx, hst] at hstat
      rw [hqx, hresp, hpart]
      exact hs.queued_clean p' q hq hstat
    · exact hs.queued_clean p' q'' hold hstat
  · intro p' q'' hq''
    rcases lookupPtr_setQuery_cases hq hq'' with ⟨hpp, hqx⟩ | ⟨hpp, hold⟩
    · subst hpp
      rw [hqx, hresp, hpart]
      exact hs.response_join p' q hq
    · exact hs.response_join p' q'' hold

theorem cancel_query_eq_of_found {s : Application} {id : String} {p : Nat} {q : Query}
    (hid : lookupId s.query_map_ id = some p) (hq : lookupPtr s.heap p = some q) :
    cancel_query s id = { s with heap := setQuery s.heap p { q with canceled := true } } := by
  simp [cancel_query, hid, hq]

theorem appInv_cancel_query {s : Application} (hs : AppInv s) (id : String) :
    AppInv (cancel_query s id) := by
  rcases hid : lookupId s.query_map_ id with _ | p
  · have : cancel_query s id = s := by simp [cancel_query, hid]
    rw [this]
    exact hs
  · rcases hq : lookupPtr s.heap p with _ | q
    · have : cancel_query s id = s := by simp [cancel_query, hid, hq]
      rw [this]
      exact hs
    · rw [cancel_query_eq_of_found hid hq]
      exact appInv_set_record hs hq rfl ⟨rfl, rfl, rfl⟩

theorem appInv_update_running {s : Application} (hs : AppInv s) {p : Nat} {q x : Query}
    (hq : lookupPtr s.heap p = some q)
    (hrun : q.status = .Running)
    (hid : x.id = q.id)
    (hstat : x.status ≠ .Queued)
    (hjoin : x.response = String.join x.partial_responses) :
    AppInv { s with heap := setQuery s.heap p x } := by
  have hnotq : p ∉ s.query_queue_ := by
    intro hmem
    have := hs.queue_queued p hmem q hq
    rw [hrun] at this
    cases this
  refine ⟨?_, ?_, hs.map_ids, hs.map_keys_nodup, hs.map_vals_nodup, ?_, ?_,
      hs.queue_in_map, hs.queue_nodup, ?_, ?_, ?_, ?_⟩
  · intro k hk
    rw [setQuery_keys] at hk
    exact hs.heap_keys_lt k hk
  · rw [setQuery_keys]
    exact hs.heap_keys_nodup
  · intro e he
    by_cases hp : e.2 = p
    · rw [hp, lookupPtr_setQuery_self x hq]
      rfl
    · rw [lookupPtr_setQuery_ne x hp]
      exact hs.map_vals_heap e he
  · intro e he q'' hq''
    by_cases hp : e.2 = p
    · rw [hp] at hq''
      rw [lookupPtr_setQuery_self x hq] at hq''
      cases hq''
      rw [hid]
      exact hs.map_id_field e he q (hp ▸ hq)
    · rw [lookupPtr_setQuery_ne x hp] at hq''
      exact hs.map_id_field e he q'' hq''
  · intro p' hp' q'' hq''
    rcases lookupPtr_setQuery_cases hq hq'' with ⟨hpp, hqx⟩ | ⟨hpp, hold⟩
    · subst hpp
      exact absurd hp' hnotq
    · exact hs.queue_queued p' hp' q'' hold
  · intro p' q'' hq'' hq_stat
    rcases lookupPtr_setQuery_cases hq hq'' with ⟨hpp, hqx⟩ | ⟨hpp, hold⟩
    · subst hpp
      rw [hqx] at hq_stat
      exact absurd hq_stat hstat
    · exact hs.queued_in_queue p' q'' hold hq_stat
  · intro p' q'' hq'' hq_stat
    rcases lookupPtr_setQuery_cases hq hq'' with ⟨hpp, hqx⟩ | ⟨hpp, hold⟩
    · subst hpp
      rw [hqx] at hq_stat
      exact absurd hq_stat hstat
    · exact hs.queued_clean p' q'' hold hq_stat
  · intro p' q'' hq''
    rcases lookupPtr_setQuery_cases hq hq'' with ⟨hpp, hqx⟩ | ⟨hpp, hold⟩
    · subst hpp
      rw [hqx]
      exact hjoin
    · exact hs.response_join p' q'' hold

theorem appInv_dequeue_update {s : Application} (hs : AppInv s) {p : Nat}
    {rest : List Nat} {q x : Query}
    (hqueue : s.query_queue_ = p :: rest)
    (hq : lookupPtr s.heap p = some q)
    (hid : x.id = q.id)
    (hstat : x.status ≠ .Queued)
    (hjoin : x.response = String.join x.partial_responses) :
    AppInv { s with query_queue_ := rest, heap := setQuery s.heap p x } := by
  have hq_nodup := hs.queue_nodup
  rw [hqueue] at hq_nodup
  have hp_notin : p ∉ rest := (List.nodup_cons.1 hq_nodup).1
  have hrest_nodup : rest.Nodup := (List.nodup_cons.1 hq_nodup).2
  refine ⟨?_, ?_, hs.map_ids, hs.map_keys_nodup, hs.map_vals_nodup, ?_, ?_,
      ?_, hrest_nodup, ?_, ?_, ?_, ?_⟩
  · intro k hk
    rw [setQuery_keys] at hk
    exact hs.heap_keys_lt k hk
  · rw [setQuery_keys]
    exact hs.heap_keys_nodup
  · intro e he
    by_cases hp : e.2 = p
    · rw [hp, lookupPtr_setQuery_self x hq]
      rfl
    · rw [lookupPtr_setQuery_ne x hp]
      exact hs.map_vals_heap e he
  · intro e he q'' hq''
    by_cases hp : e.2 = p
    · rw [hp] at hq''
      rw [lookupPtr_setQuery_self x hq] at hq''
      cases hq''
      rw [hid]
      exact hs.map_id_field e he q (hp ▸ hq)
    · rw [lookupPtr_setQuery_ne x hp] at hq''
      exact hs.map_id_field e he q'' hq''
  · intro p' hp'
    exact hs.queue_in_map p' (by rw [hqueue]; exact List.mem_cons_of_mem _ hp')
  · intro p' hp' q'' hq''
    rcases lookupPtr_setQuery_cases hq hq'' with ⟨hpp, hqx⟩ | ⟨hpp, hold⟩
    · subst hpp
      exact absurd hp' hp_notin
    · exact hs.queue_queued p' (by rw [hqueue]; exact List.mem_cons_of_mem _ hp') q'' hold
  · intro p' q'' hq'' hq_stat
    rcases lookupPtr_setQuery_cases hq hq'' with ⟨hpp, hqx⟩ | ⟨hpp, hold⟩
    · subst hpp
      rw [hqx] at hq_stat
      exact absurd hq_stat hstat
    · have hmem := hs.queued_in_queue p' q'' hold hq_stat
      rw [hqueue] at hmem
      rcases List.mem_cons.1 hmem with hmem | hmem
      · exact absurd hmem hpp
      · exact hmem
  · intro p' q'' hq'' hq_stat
    rcases lookupPtr_setQuery_cases hq hq'' with ⟨hpp, hqx⟩ | ⟨hpp, hold⟩
    · subst hpp
      rw [hqx] at hq_stat
      exact absurd hq_stat hstat
    · exact hs.queued_clean p' q'' hold hq_stat
  · intro p' q'' hq''
    rcases lookupPtr_setQuery_cases hq hq'' with ⟨hpp, hqx⟩ | ⟨hpp, hold⟩
    · subst hpp
      rw [hqx]
      exact hjoin
    · exact hs.response_join p' q'' hold

theorem appInv_step {s : Application} {l : Label} {s' : Application}
    (hs : AppInv s) (h : Step s l s') : AppInv s' := by
  cases h with
  | submit => exact appInv_add_query hs _ _
  | cancel => exact appInv_cancel_query hs _
  | skip hqueue hq hstat hflag =>
    exact appInv_dequeue_update hs hqueue hq rfl (by simp)
      (by simpa using hs.response_join _ _ hq)
  | contact hqueue hq hstat hflag =>
    exact appInv_dequeue_update hs hqueue hq rfl (by simp)
      (by simpa using hs.response_join _ _ hq)
  | chunk hq hrun hflag =>
    refine appInv_update_running hs hq hrun rfl (by simpa using hrun ▸ (by simp)) ?_
    simp only [join_concat]
    rw [hs.response_join _ _ hq]
  | observeCancel hq hrun hflag =>
    exact appInv_update_running hs hq hrun rfl (by simp)
      (by simpa using hs.response_join _ _ hq)
  | complete hq hrun =>
    exact appInv_update_running hs hq hrun rfl (by simp)
      (by simpa using hs.response_join _ _ hq)
  | fail hq hrun =>
    exact appInv_update_running hs hq hrun rfl (by simp)
      (by simpa using hs.response_join _ _ hq)

theorem reachable_appInv {s : Application} (h : Reachable s) : AppInv s := by
  induction h with
  | init => exact AppInv.init
  | step _ hstep ih => exact appInv_step ih hstep

/-- How one step can change the record a pointer designates: either it
is untouched, or the cancellation flag is raised, or it undergoes
exactly one of the legal worker transitions of §4.2. -/
theorem step_cases {s : Application} {l : Label} {s' : Application}
    (hs : AppInv s) (h : Step s l s') {p : Nat} {q : Query}
    (hl : lookupPtr s.heap p = some q) :
    ∃ q', lookupPtr s'.heap p = some q' ∧
      ((q' = q) ∨
       (q' = { q with canceled := true }) ∨
       (q.status = .Queued ∧ q.canceled = true ∧
         q' = { q with status := .Canceled } ∧ l = .skip p) ∨
       (q.status = .Queued ∧ q.canceled = false ∧
         q' = { q with status := .Running } ∧ l = .contact p) ∨
       (∃ c, q.status = .Running ∧ q.canceled = false ∧
         q' = { q with response := q.response ++ c,
                       partial_responses := q.partial_responses ++ [c] } ∧
         l = .chunk p c) ∨
       (q.status = .Running ∧ q.canceled = true ∧
         q' = { q with status := .Canceled } ∧ l = .observeCancel p) ∨
       (∃ ctx, q.status = .Running ∧
         q' = { q with status := .Completed, last_context := some ctx } ∧
         l = .complete p ctx) ∨
       (∃ msg, q.status = .Running ∧
         q' = { q with status := .Failed,
                       error_message := "LLM backend error: " ++ msg } ∧
         l = .fail p msg)) := by
  cases h with
  | submit =>
    refine ⟨q, ?_, Or.inl rfl⟩
    have hlt := hs.mem_heap_lt hl
    simp only [add_query]
    rw [lookupPtr_cons_ne (Nat.ne_of_gt hlt)]
    exact hl
  | cancel =>
    rename_i id
    rcases hid : lookupId s.query_map_ id with _ | p2
    · have he : cancel_query s id = s := by simp [cancel_query, hid]
      rw [he]
      exact ⟨q, hl, Or.inl rfl⟩
    · rcases hq2 : lookupPtr s.heap p2 with _ | q2
      · have he : cancel_query s id = s := by simp [cancel_query, hid, hq2]
        rw [he]
        exact ⟨q, hl, Or.inl rfl⟩
      · rw [cancel_query_eq_of_found hid hq2]
        dsimp only
        by_cases hpp : p = p2
        · subst hpp
          rw [hl] at hq2
          cases hq2
          exact ⟨_, lookupPtr_setQuery_self _ hl, Or.inr (Or.inl rfl)⟩
        · refine ⟨q, ?_, Or.inl rfl⟩
          rw [lookupPtr_setQuery_ne _ hpp]
          exact hl
  | skip hqueue hq0 hstat hflag =>
    rename_i p0 rest q0
    dsimp only
    by_cases hpp : p = p0
    · subst hpp
      rw [hl] at hq0
      cases hq0
      exact ⟨_, lookupPtr_setQuery_self _ hl,
        Or.inr (Or.inr (Or.inl ⟨hstat, hflag, rfl, rfl⟩))⟩
    · refine ⟨q, ?_, Or.inl rfl⟩
      rw [lookupPtr_setQuery_ne _ hpp]
      exact hl
  | contact hqueue hq0 hstat hflag =>
    rename_i p0 rest q0
    dsimp only
    by_cases hpp : p = p0
    · subst hpp
      rw [hl] at hq0
      cases hq0
      exact ⟨_, lookupPtr_setQuery_self _ hl,
        Or.inr (Or.inr (Or.inr (Or.inl ⟨hstat, hflag, rfl, rfl⟩)))⟩
    · refine ⟨q, ?_, Or.inl rfl⟩
      rw [lookupPtr_setQuery_ne _ hpp]
      exact hl
  | chunk hq0 hrun hflag =>
    rename_i p0 q0 c
    dsimp only
    by_cases hpp : p = p0
    · subst hpp
      rw [hl] at hq0
      cases hq0
      exact ⟨_, lookupPtr_setQuery_self _ hl,
        Or.inr (Or.inr (Or.inr (Or.inr (Or.inl ⟨c, hrun, hflag, rfl, rfl⟩))))⟩
    · refine ⟨q, ?_, Or.inl rfl⟩
      rw [lookupPtr_setQuery_ne _ hpp]
      exact hl
  | observeCancel hq0 hrun hflag =>
    rename_i p0 q0
    dsimp only
    by_cases hpp : p = p0
    · subst hpp
      rw [hl] at hq0
      cases hq0
      exact ⟨_, lookupPtr_setQuery_self _ hl,
        Or.inr (Or.inr (Or.inr (Or.inr (Or.inr (Or.inl ⟨hrun, hflag, rfl, rfl⟩)))))⟩
    · refine ⟨q, ?_, Or.inl rfl⟩
      rw [lookupPtr_setQuery_ne _ hpp]
      exact hl
  | complete hq0 hrun =>
    rename_i p0 q0 ctx
    dsimp only
    by_cases hpp : p = p0
    · subst hpp
      rw [hl] at hq0
      cases hq0
      exact ⟨_, lookupPtr_setQuery_self _ hl,
        Or.inr (Or.inr (Or.inr (Or.inr (Or.inr (Or.inr (Or.inl ⟨ctx, hrun, rfl, rfl⟩))))))⟩
    · refine ⟨q, ?_, Or.inl rfl⟩
      rw [lookupPtr_setQuery_ne _ hpp]
      exact hl
  | fail hq0 hrun =>
    rename_i p0 q0 msg
    dsimp only
    by_cases hpp : p = p0
    · subst hpp
      rw [hl] at hq0
      cases hq0
      exact ⟨_, lookupPtr_setQuery_self _ hl,
        Or.inr (Or.inr (Or.inr (Or.inr (Or.inr (Or.inr (Or.inr ⟨msg, hrun, rfl, rfl⟩))))))⟩
    · refine ⟨q, ?_, Or.inl rfl⟩
      rw [lookupPtr_setQuery_ne _ hpp]
      exact hl

theorem step_status_legal {s : Application} {l : Label} {s' : Application}
    (hs : AppInv s) (h : Step s l s') {p : Nat} {q q' : Query}
    (hl : lookupPtr s.heap p = some q) (hl' : lookupPtr s'.heap p = some q') :
    q'.status = q.status ∨ legalEdge q.status q'.status = true := by
  obtain ⟨q'', hl'', hcases⟩ := step_cases hs h hl
  rw [hl'] at hl''
  cases hl''
  rcases hcases with hc | hc | hc | hc | hc | hc | hc | hc
  · exact Or.inl (by rw [hc])
  · exact Or.inl (by rw [hc])
  · obtain ⟨hstat, _, hq', _⟩ := hc
    exact Or.inr (by rw [hq', hstat]; rfl)
  · obtain ⟨hstat, _, hq', _⟩ := hc
    exact Or.inr (by rw [hq', hstat]; rfl)
  · obtain ⟨c, hstat, _, hq', _⟩ := hc
    exact Or.inl (by rw [hq'])
  · obtain ⟨hstat, _, hq', _⟩ := hc
    exact Or.inr (by rw [hq', hstat]; rfl)
  · obtain ⟨ctx, hstat, hq', _⟩ := hc
    exact Or.inr (by rw [hq', hstat]; rfl)
  · obtain ⟨msg, hstat, hq', _⟩ := hc
    exact Or.inr (by rw [hq', hstat]; rfl)

theorem step_terminal_frame {s : Application} {l : Label} {s' : Application}
    (hs : AppInv s) (h : Step s l s') {p : Nat} {q : Query}
    (hl : lookupPtr s.heap p = some q) (ht : q.status.isTerminal = true) :
    ∃ q', lookupPtr s'.heap p = some q' ∧ q'.status = q.status ∧
      q'.response = q.response ∧ q'.partial_responses = q.partial_responses ∧
      q'.error_message = q.error_message ∧ q'.id = q.id := by
  obtain ⟨q', hl', hcases⟩ := step_cases hs h hl
  rcases hcases with hc | hc | hc | hc | hc | hc | hc | hc
  · exact ⟨q', hl', by simp [hc]⟩
  · exact ⟨q', hl', by simp [hc]⟩
  · rw [hc.1] at ht
    simp [Status.isTerminal] at ht
  · rw [hc.1] at ht
    simp [Status.isTerminal] at ht
  · obtain ⟨c, hstat, _⟩ := hc
    rw [hstat] at ht
    simp [Status.isTerminal] at ht
  · rw [hc.1] at ht
    simp [Status.isTerminal] at ht
  · obtain ⟨ctx, hstat, _⟩ := hc
    rw [hstat] at ht
    simp [Status.isTerminal] at ht
  · obtain ⟨msg, hstat, _⟩ := hc
    rw [hstat] at ht
    simp [Status.isTerminal] at ht

theorem steps_terminal_frame {s : Application} {L : List Label} {s' : Application}
    (hs : AppInv s) (hsteps : Steps s L s') {p : Nat} {q : Query}
    (hl : lookupPtr s.heap p = some q) (ht : q.status.isTerminal = true) :
    ∃ q', lookupPtr s'.heap p = some q' ∧ q'.status = q.status ∧
      q'.response = q.response ∧ q'.partial_responses = q.partial_responses ∧
      q'.error_message = q.error_message ∧ q'.id = q.id := by
  induction hsteps generalizing q with
  | refl => exact ⟨q, hl, rfl, rfl, rfl, rfl, rfl⟩
  | cons hstep hrest ih =>
    obtain ⟨q1, hl1, hst1, hresp1, hpart1, herr1, hid1⟩ :=
      step_terminal_frame hs hstep hl ht
    obtain ⟨q2, hl2, hst2, hresp2, hpart2, herr2, hid2⟩ :=
      ih (appInv_step hs hstep) hl1 (by rw [hst1]; exact ht)
    exact ⟨q2, hl2, by rw [hst2, hst1], by rw [hresp2, hresp1],
      by rw [hpart2, hpart1], by rw [herr2, herr1], by rw [hid2, hid1]⟩

theorem step_contact_inv {s : Application} {s' : Application} {p : Nat}
    (h : Step s (.contact p) s') :
    ∃ q rest, s.query_queue_ = p :: rest ∧ lookupPtr s.heap p = some q ∧
      q.status = .Queued ∧ q.canceled = false := by
  cases h with
  | contact hqueue hq hstat hflag => exact ⟨_, _, hqueue, hq, hstat, hflag⟩

theorem step_cancelPending {s : Application} {l : Label} {s' : Application}
    (hs : AppInv s) (h : Step s l s') {p : Nat} (hp : CancelPending s p) :
    CancelPending s' p ∧ l ≠ .contact p := by
  obtain ⟨q, hl, hflag, hstat, hresp, hpart⟩ := hp
  have hncontact : l ≠ .contact p := by
    intro hc
    subst hc
    obtain ⟨q0, rest, _, hq0, _, hflag0⟩ := step_contact_inv h
    rw [hl] at hq0
    cases hq0
    rw [hflag] at hflag0
    cases hflag0
  obtain ⟨q', hl', hcases⟩ := step_cases hs h hl
  refine ⟨?_, hncontact⟩
  rcases hcases with hc | hc | hc | hc | hc | hc | hc | hc
  · exact ⟨q', hl', by simp [hc, hflag, hstat, hresp, hpart]⟩
  · exact ⟨q', hl', by simp [hc, hflag, hstat, hresp, hpart]⟩
  · exact ⟨q', hl', by simp [hc.2.2.1, hflag, hresp, hpart]⟩
  · rw [hc.2.1] at hflag
    cases hflag
  · obtain ⟨c, hrun, _⟩ := hc
    rcases hstat with hq | hq <;> (rw [hq] at hrun; cases hrun)
  · obtain ⟨hrun, _⟩ := hc
    rcases hstat with hq | hq <;> (rw [hq] at hrun; cases hrun)
  · obtain ⟨ctx, hrun, _⟩ := hc
    rcases hstat with hq | hq <;> (rw [hq] at hrun; cases hrun)
  · obtain ⟨msg, hrun, _⟩ := hc
    rcases hstat with hq | hq <;> (rw [hq] at hrun; cases hrun)

theorem steps_cancelPending {s : Application} {L : List Label} {s' : Application}
    (hs : AppInv s) (hsteps : Steps s L s') {p : Nat} (hp : CancelPending s p) :
    CancelPending s' p ∧ Label.contact p ∉ L := by
  induction hsteps with
  | refl => exact ⟨hp, by simp⟩
  | cons hstep hrest ih =>
    rename_i s0 l s1 ls s2
    obtain ⟨hp1, hnc⟩ := step_cancelPending hs hstep hp
    obtain ⟨hp2, hnmem⟩ := ih (appInv_step hs hstep) hp1
    refine ⟨hp2, ?_⟩
    intro hmem
    rcases List.mem_cons.1 hmem with hmem | hmem
    · exact hnc hmem.symm
    · exact hnmem hmem

theorem process_one_other {h : List (Nat × Query)} {p p' : Nat}
    (behav : Nat → BackendResult) (cA : Nat → Option Nat) (hne : p' ≠ p) :
    lookupPtr (process_one h p behav cA).1 p' = lookupPtr h p' := by
  unfold process_one
  cases hq : lookupPtr h p with
  | none => rfl
  | some q =>
    by_cases hc : q.canceled <;> simp [hc, lookupPtr_setQuery_ne _ hne]

theorem process_queries_contacts : ∀ (ps : List Nat) (h : List (Nat × Query))
    (behav : Nat → BackendResult) (cA : Nat → Option Nat), ps.Nodup →
    (process_queries h ps behav cA).2 = ps.filter (contacted h) := by
  intro ps
  induction ps with
  | nil => intro h behav cA _; rfl
  | cons p rest ih =>
    intro h behav cA hnodup
    have hp_notin : p ∉ rest := (List.nodup_cons.1 hnodup).1
    have hrest : rest.Nodup := (List.nodup_cons.1 hnodup).2
    show ((if (process_one h p behav cA).2 then [p] else []) ++
        (process_queries (process_one h p behav cA).1 rest behav cA).2)
      = (p :: rest).filter (contacted h)
    rw [ih (process_one h p behav cA).1 behav cA hrest]
    have hfilter : rest.filter (contacted (process_one h p behav cA).1)
        = rest.filter (contacted h) := by
      refine List.filter_congr ?_
      intro x hx
      have hne : x ≠ p := fun hc => hp_notin (hc ▸ hx)
      unfold contacted
      rw [process_one_other behav cA hne]
    rw [hfilter, List.filter_cons]
    have hflag : (process_one h p behav cA).2 = contacted h p := by
      unfold process_one contacted
      cases hq : lookupPtr h p with
      | none => rfl
      | some q => by_cases hc : q.canceled <;> simp [hc]
    rw [hflag]
    by_cases hcp : contacted h p = true
    · simp [hcp]
    · simp [Bool.not_eq_true] at hcp
      simp [hcp]

theorem foldl_add_queue : ∀ (ps : List String) (s : Application),
    (ps.foldl (fun s pr => (add_query s pr none).2) s).query_queue_
      = s.query_queue_ ++ List.range' s.next_ptr ps.length := by
  intro ps
  induction ps with
  | nil => intro s; simp
  | cons pr rest ih =>
    intro s
    rw [List.foldl_cons, ih]
    show ((add_query s pr none).2.query_queue_) ++ _ = _
    simp only [add_query]
    rw [List.append_assoc]
    congr 1

theorem foldl_add_clean : ∀ (ps : List String) (s : Application),
    (∀ e ∈ s.heap, e.2.canceled = false) →
    ∀ e ∈ (ps.foldl (fun s pr => (add_query s pr none).2) s).heap, e.2.canceled = false := by
  intro ps
  induction ps with
  | nil => intro s hs; exact hs
  | cons pr rest ih =>
    intro s hs
    rw [List.foldl_cons]
    refine ih _ ?_
    intro e he
    simp only [add_query, List.mem_cons] at he
    rcases he with he | he
    · rw [he]
      rfl
    · exact hs e he

theorem foldl_add_reachable : ∀ (ps : List String) (s : Application),
    Reachable s → Reachable (ps.foldl (fun s pr => (add_query s pr none).2) s) := by
  intro ps
  induction ps with
  | nil => intro s hs; exact hs
  | cons pr rest ih =>
    intro s hs
    rw [List.foldl_cons]
    exact ih _ (Reachable.step hs Step.submit)

theorem submitAll_queue (prompts : List String) :
    (submitAll prompts).query_queue_ = List.range prompts.length := by
  rw [submitAll, foldl_add_queue, List.range_eq_range']
  rfl

theorem submitAll_reachable (prompts : List String) : Reachable (submitAll prompts) :=
  foldl_add_reachable prompts Application.init Reachable.init

theorem submitAll_clean (prompts : List String) :
    ∀ e ∈ (submitAll prompts).heap, e.2.canceled = false := by
  refine foldl_add_clean prompts Application.init ?_
  intro e he
  simp [Application.init] at he

theorem process_one_self_agree {h h' : List (Nat × Query)} {p : Nat}
    {b b' : Nat → BackendResult} {cA : Nat → Option Nat}
    (hlook : lookupPtr h p = lookupPtr h' p) (hbeq : b p = b' p) :
    lookupPtr (process_one h p b cA).1 p = lookupPtr (process_one h' p b' cA).1 p := by
  unfold process_one
  rw [← hlook, ← hbeq]
  cases hq : lookupPtr h p with
  | none => exact hlook
  | some q =>
    have hq' : lookupPtr h' p = some q := hlook ▸ hq
    by_cases hc : q.canceled
    · simp only [hc, if_true]
      rw [lookupPtr_setQuery_self _ hq, lookupPtr_setQuery_self _ hq']
    · simp only [hc, if_false, Bool.false_eq_true]
      rw [lookupPtr_setQuery_self _ hq, lookupPtr_setQuery_self _ hq']

theorem process_queries_agree : ∀ (ps : List Nat) (h h' : List (Nat × Query))
    (b b' : Nat → BackendResult) (cA : Nat → Option Nat) (k : Nat),
    (∀ p, p ≠ k → b p = b' p) →
    (∀ p, p ≠ k → lookupPtr h p = lookupPtr h' p) →
    ∀ p', p' ≠ k → lookupPtr (process_queries h ps b cA).1 p'
      = lookupPtr (process_queries h' ps b' cA).1 p' := by
  intro ps
  induction ps with
  | nil => intro h h' b b' cA k hb hagree p' hp'; exact hagree p' hp'
  | cons p rest ih =>
    intro h h' b b' cA k hb hagree p' hp'
    show lookupPtr (process_queries (process_one h p b cA).1 rest b cA).1 p' = _
    refine ih (process_one h p b cA).1 (process_one h' p b' cA).1 b b' cA k hb ?_ p' hp'
    intro p'' hp''
    by_cases hpk : p = k
    · subst hpk
      rw [process_one_other b cA hp'', process_one_other b' cA hp'']
      exact hagree p'' hp''
    · have hlook := hagree p hpk
      have hbeq := hb p hpk
      by_cases hpp : p'' = p
      · subst hpp
        exact process_one_self_agree hlook hbeq
      · rw [process_one_other b cA hpp, process_one_other b' cA hpp]
        exact hagree p'' hp''

theorem steps_appInv {s : Application} {L : List Label} {s' : Application}
    (hs : AppInv s) (hsteps : Steps s L s') : AppInv s' := by
  induction hsteps with
  | refl => exact hs
  | cons hstep _ ih => exact ih (appInv_step hs hstep)

theorem foldl_add_map_length : ∀ (ps : List String) (s : Application),
    (ps.foldl (fun s pr => (add_query s pr none).2) s).query_map_.length
      = s.query_map_.length + ps.length := by
  intro ps
  induction ps with
  | nil => intro s; simp
  | cons pr rest ih =>
    intro s
    rw [List.foldl_cons, ih]
    show ((add_query s pr none).2.query_map_).length + _ = _
    simp only [add_query, List.length_cons]
    omega

theorem foldl_min_le (l : List ℚ) : ∀ (a : ℚ),
    l.foldl min a ≤ a ∧ ∀ x ∈ l, l.foldl min a ≤ x := by
  induction l with
  | nil => intro a; exact ⟨le_refl a, by simp⟩
  | cons b bs ih =>
    intro a
    rw [List.foldl_cons]
    obtain ⟨h1, h2⟩ := ih (min a b)
    refine ⟨le_trans h1 (min_le_left a b), ?_⟩
    intro x hx
    rcases List.mem_cons.1 hx with hx | hx
    · subst hx
      exact le_trans h1 (min_le_right a x)
    · exact h2 x hx

theorem foldl_min_mem (l : List ℚ) : ∀ (a : ℚ), l.foldl min a ∈ a :: l := by
  induction l with
  | nil => intro a; simp
  | cons b bs ih =>
    intro a
    rw [List.foldl_cons]
    have := ih (min a b)
    rcases List.mem_cons.1 this with h | h
    · rcases min_choice a b with hc | hc
      · rw [h, hc]; simp
      · rw [h, hc]; simp
    · simp [List.mem_cons]
      right; right
      exact h

theorem foldl_max_ge (l : List ℚ) : ∀ (a : ℚ),
    a ≤ l.foldl max a ∧ ∀ x ∈ l, x ≤ l.foldl max a := by
  induction l with
  | nil => intro a; exact ⟨le_refl a, by simp⟩
  | cons b bs ih =>
    intro a
    rw [List.foldl_cons]
    obtain ⟨h1, h2⟩ := ih (max a b)
    refine ⟨le_trans (le_max_left a b) h1, ?_⟩
    intro x hx
    rcases List.mem_cons.1 hx with hx | hx
    · subst hx
      exact le_trans (le_max_right a x) h1
    · exact h2 x hx

theorem foldl_max_mem (l : List ℚ) : ∀ (a : ℚ), l.foldl max a ∈ a :: l := by
  induction l with
  | nil => intro a; simp
  | cons b bs ih =>
    intro a
    rw [List.foldl_cons]
    have := ih (max a b)
    rcases List.mem_cons.1 this with h | h
    · rcases max_choice a b with hc | hc
      · rw [h, hc]; simp
      · rw [h, hc]; simp
    · simp [List.mem_cons]
      right; right
      exact h

theorem filterSnd_length : ∀ (m : List (String × Nat)) (p : Nat),
    (m.filter (fun e => e.2 == p)).length = (m.map Prod.snd).count p := by
  intro m
  induction m with
  | nil => intro p; rfl
  | cons e rest ih =>
    intro p
    rw [List.filter_cons, List.map_cons, List.count_cons]
    by_cases hp : e.2 = p
    · simp [hp, ih p]
    · simp [hp, ih p]

theorem lookupId_mem {m : List (String × Nat)} {i : String} {p : Nat}
    (hl : lookupId m i = some p) : (i, p) ∈ m := by
  induction m with
  | nil => simp [lookupId] at hl
  | cons e rest ih =>
    obtain ⟨k, v⟩ := e
    by_cases hk : k = i
    · subst hk
      simp [lookupId] at hl
      simp [hl]
    · rw [show lookupId ((k, v) :: rest) i = lookupId rest i by simp [lookupId, hk]] at hl
      exact List.mem_cons_of_mem _ (ih hl)

/-- C1: every job status is one of the five states {Queued, Running,
Completed, Canceled, Failed}; along every reachable sequence of
operations a step changes a job's status only along the legal edges
Queued → {Canceled, Running} and Running → {Canceled, Completed,
Failed}; and the terminal states Canceled, Completed, Failed are never
left by any later trace. -/
theorem C1_status_state_machine :
    (∀ st : Status, st = .Queued ∨ st = .Running ∨ st = .Completed ∨
      st = .Canceled ∨ st = .Failed) ∧
    (∀ (s : Application) (l : Label) (s' : Application) (p : Nat) (q q' : Query),
      Reachable s → Step s l s' →
      lookupPtr s.heap p = some q → lookupPtr s'.heap p = some q' →
      q'.status = q.status ∨ legalEdge q.status q'.status = true) ∧
    (∀ (s : Application) (L : List Label) (s' : Application) (p : Nat) (q : Query),
      Reachable s → Steps s L s' →
      lookupPtr s.heap p = some q → q.status.isTerminal = true →
      ∃ q', lookupPtr s'.heap p = some q' ∧ q'.status = q.status) := by
  refine ⟨?_, ?_, ?_⟩
  · intro st
    cases st <;> simp
  · intro s l s' p q q' hr hst hl hl'
    exact step_status_legal (reachable_appInv hr) hst hl hl'
  · intro s L s' p q hr hsteps hl ht
    obtain ⟨q', hl', hst, _⟩ := steps_terminal_frame (reachable_appInv hr) hsteps hl ht
    exact ⟨q', hl', hst⟩

/-- Witness for C1: the first submitted job is Queued, and the worker's
dequeue step moves it along the legal edge Queued → Running. -/
theorem C1_status_state_machine_witness :
    (exQ0.status = Status.Queued ∧ exQ0run.status = Status.Running) ∧
    (exQ0run.status = exQ0.status ∨ legalEdge exQ0.status exQ0run.status = true) := by
  refine ⟨⟨rfl, rfl⟩, ?_⟩
  exact C1_status_state_machine.2.1 exApp1 (.contact 0) exApp1run 0 exQ0 exQ0run
    (Reachable.step Reachable.init Step.submit)
    (@Step.contact exApp1 0 [] exQ0 rfl rfl rfl rfl) rfl rfl

/-- C2: a backend-reported error marks exactly the failing job Failed
with a non-empty human-readable message; the step leaves every other
job's record untouched; two drains of the worker loop whose backends
differ only on one job leave every other record identical (the worker
loop proceeds past the failure); and in the concrete three-job run
where only job 1 errors, jobs 0 and 2 end Completed with their normal
responses, identical to the run in which job 1 succeeds, while job 1
ends Failed with a non-empty message. -/
theorem C2_backend_failure_isolation :
    (∀ (s : Application) (p : Nat) (msg : String) (s' : Application),
      Step s (.fail p msg) s' →
      ∃ q', lookupPtr s'.heap p = some q' ∧ q'.status = .Failed ∧
        q'.error_message ≠ "") ∧
    (∀ (s : Application) (p : Nat) (msg : String) (s' : Application) (p' : Nat),
      Step s (.fail p msg) s' → p' ≠ p →
      lookupPtr s'.heap p' = lookupPtr s.heap p') ∧
    (∀ (ps : List Nat) (h : List (Nat × Query)) (b b' : Nat → BackendResult)
      (cA : Nat → Option Nat) (k : Nat),
      (∀ p, p ≠ k → b p = b' p) →
      ∀ p', p' ≠ k → lookupPtr (process_queries h ps b cA).1 p'
        = lookupPtr (process_queries h ps b' cA).1 p') ∧
    (statusAt exFinalMix 0 = some .Completed ∧ responseAt exFinalMix 0 = some "ok" ∧
     statusAt exFinalMix 1 = some .Failed ∧
     errorAt exFinalMix 1 = some "LLM backend error: boom" ∧
     statusAt exFinalMix 2 = some .Completed ∧ responseAt exFinalMix 2 = some "ok" ∧
     statusAt exFinalOk 1 = some .Completed ∧
     lookupPtr exFinalMix 0 = lookupPtr exFinalOk 0 ∧
     lookupPtr exFinalMix 2 = lookupPtr exFinalOk 2) := by
  refine ⟨?_, ?_, ?_, ?_⟩
  · intro s p msg s' h
    cases h with
    | fail hq hrun =>
      refine ⟨_, lookupPtr_setQuery_self _ hq, rfl, ?_⟩
      intro heq
      have hlen := congrArg String.length heq
      rw [String.length_append] at hlen
      have h19 : ("LLM backend error: ").length = 19 := rfl
      have h0 : ("" : String).length = 0 := rfl
      rw [h19, h0] at hlen
      omega
  · intro s p msg s' p' h hne
    cases h with
    | fail hq hrun => exact lookupPtr_setQuery_ne _ hne
  · intro ps h b b' cA k hb p' hp'
    exact process_queries_agree ps h h b b' cA k hb (fun _ _ => rfl) p' hp'
  · refine ⟨by decide, by decide, by decide, by decide, by decide, by decide,
      by decide, ?_, ?_⟩
    · exact process_queries_agree exApp3.query_queue_ exApp3.heap exApp3.heap
        exBehavMix exBehavOk exNoCancel 1
        (by intro p hp; simp [exBehavMix, exBehavOk, hp]) (fun _ _ => rfl) 0 (by decide)
    · exact process_queries_agree exApp3.query_queue_ exApp3.heap exApp3.heap
        exBehavMix exBehavOk exNoCancel 1
        (by intro p hp; simp [exBehavMix, exBehavOk, hp]) (fun _ _ => rfl) 2 (by decide)

/-- Witness for C2: the concrete failing step on the Running job 0 and
the isolation of an unrelated pointer. -/
theorem C2_backend_failure_isolation_witness :
    (∃ q', lookupPtr exApp1fail.heap 0 = some q' ∧ q'.status = .Failed ∧
      q'.error_message ≠ "") ∧
    lookupPtr exApp1fail.heap 5 = lookupPtr exApp1run.heap 5 ∧
    lookupPtr (process_queries exApp3.heap exApp3.query_queue_ exBehavMix exNoCancel).1 0
      = lookupPtr (process_queries exApp3.heap exApp3.query_queue_ exBehavOk exNoCancel).1 0 := by
  refine ⟨?_, ?_, ?_⟩
  · exact C2_backend_failure_isolation.1 exApp1run 0 "boom" exApp1fail
      (@Step.fail exApp1run 0 exQ0run "boom" rfl rfl)
  · exact C2_backend_failure_isolation.2.1 exApp1run 0 "boom" exApp1fail 5
      (@Step.fail exApp1run 0 exQ0run "boom" rfl rfl) (by decide)
  · exact C2_backend_failure_isolation.2.2.1 exApp3.query_queue_ exApp3.heap
      exBehavMix exBehavOk exNoCancel 1
      (by intro p hp; simp [exBehavMix, exBehavOk, hp]) 0 (by decide)

/-- C3: a job whose cancellation flag is set while it is still Queued
is never the subject of a backend contact in any later trace, keeps an
empty response and empty chunk sequence, stays Queued or Canceled, and
once it has left the queue (the worker dequeued it) it is Canceled. -/
theorem C3_cancel_before_dequeue :
    ∀ (s : Application) (L : List Label) (s' : Application) (p : Nat) (q : Query),
      Reachable s → Steps s L s' →
      lookupPtr s.heap p = some q → q.status = .Queued → q.canceled = true →
      Label.contact p ∉ L ∧
      ∃ q', lookupPtr s'.heap p = some q' ∧ q'.response = "" ∧
        q'.partial_responses = [] ∧
        (q'.status = .Queued ∨ q'.status = .Canceled) ∧
        (p ∉ s'.query_queue_ → q'.status = .Canceled) := by
  intro s L s' p q hr hsteps hl hstat hflag
  have hinv := reachable_appInv hr
  have hclean := hinv.queued_clean p q hl hstat
  have hpend : CancelPending s p := ⟨q, hl, hflag, Or.inl hstat, hclean.1, hclean.2⟩
  obtain ⟨hpend', hnc⟩ := steps_cancelPending hinv hsteps hpend
  obtain ⟨q', hl', hflag', hstat', hresp', hpart'⟩ := hpend'
  have hinv' := steps_appInv hinv hsteps
  refine ⟨hnc, q', hl', hresp', hpart', hstat', ?_⟩
  intro hnotin
  rcases hstat' with hq | hq
  · exact absurd (hinv'.queued_in_queue p q' hl' hq) hnotin
  · exact hq

/-- Witness for C3: submit, cancel while Queued, then the worker's skip
step; the job ends Canceled with empty output and the trace holds no
contact for it. -/
theorem C3_cancel_before_dequeue_witness :
    (exQ0c.status = Status.Queued ∧ exQ0c.canceled = true) ∧
    (Label.contact 0 ∉ [Label.skip 0] ∧
      ∃ q', lookupPtr exApp1cSkip.heap 0 = some q' ∧ q'.response = "" ∧
        q'.partial_responses = [] ∧
        (q'.status = .Queued ∨ q'.status = .Canceled) ∧
        (0 ∉ exApp1cSkip.query_queue_ → q'.status = .Canceled)) := by
  refine ⟨⟨rfl, rfl⟩, ?_⟩
  refine C3_cancel_before_dequeue exApp1c [Label.skip 0] exApp1cSkip 0 exQ0c ?_ ?_ rfl rfl rfl
  · have hid : lookupId exApp1.query_map_ (mkId 0) = some 0 := by
      simp [exApp1, add_query, Application.init, lookupId]
    have hq : lookupPtr exApp1.heap 0 = some exQ0 := rfl
    have hcq := cancel_query_eq_of_found hid hq
    have h := Reachable.step (Reachable.step Reachable.init Step.submit)
      (@Step.cancel exApp1 (mkId 0))
    rw [hcq] at h
    exact h
  · exact Steps.cons (@Step.skip exApp1c 0 [] exQ0c rfl rfl rfl rfl) Steps.refl

/-- C4: a chunk is appended only while the cancellation flag is clear;
observing the flag at a chunk boundary marks the job Canceled and
preserves every chunk appended so far; once Canceled, no later trace
appends a chunk or changes the response; and concretely, cancellation
observed after 2 of 5 chunks yields Canceled with exactly those 2
chunks. -/
theorem C4_cancel_mid_stream :
    (∀ (s : Application) (p : Nat) (c : String) (s' : Application),
      Step s (.chunk p c) s' →
      ∃ q, lookupPtr s.heap p = some q ∧ q.status = .Running ∧
        q.canceled = false) ∧
    (∀ (s : Application) (p : Nat) (s' : Application) (q : Query),
      Step s (.observeCancel p) s' → lookupPtr s.heap p = some q →
      ∃ q', lookupPtr s'.heap p = some q' ∧ q'.status = .Canceled ∧
        q'.partial_responses = q.partial_responses ∧
        q'.response = q.response) ∧
    (∀ (s : Application) (L : List Label) (s' : Application) (p : Nat) (q : Query),
      Reachable s → Steps s L s' → lookupPtr s.heap p = some q →
      q.status = .Canceled →
      ∃ q', lookupPtr s'.heap p = some q' ∧ q'.status = .Canceled ∧
        q'.partial_responses = q.partial_responses ∧
        q'.response = q.response) ∧
    run_query { exQ0 with status := Status.Running }
        (.success ["c1", "c2", "c3", "c4", "c5"] 9) (some 2)
      = { exQ0 with status := Status.Canceled, canceled := true,
                    response := "c1c2", partial_responses := ["c1", "c2"] } := by
  refine ⟨?_, ?_, ?_, rfl⟩
  · intro s p c s' h
    cases h with
    | chunk hq hrun hflag => exact ⟨_, hq, hrun, hflag⟩
  · intro s p s' q h hq
    cases h with
    | observeCancel hq0 hrun hflag =>
      have hqq := Option.some.inj (hq0.symm.trans hq)
      subst hqq
      exact ⟨_, lookupPtr_setQuery_self _ hq0, rfl, rfl, rfl⟩
  · intro s L s' p q hr hsteps hl hstat
    have ht : q.status.isTerminal = true := by rw [hstat]; rfl
    obtain ⟨q', hl', hst, hresp, hpart, _⟩ :=
      steps_terminal_frame (reachable_appInv hr) hsteps hl ht
    exact ⟨q', hl', by rw [hst, hstat], hpart, hresp⟩

/-- Witness for C4: a concrete chunk arrival, a concrete observation of
the flag at a chunk boundary, and preservation of the canceled job's
chunks along the empty trace. -/
theorem C4_cancel_mid_stream_witness :
    (∃ q, lookupPtr exApp1run.heap 0 = some q ∧ q.status = .Running ∧
      q.canceled = false) ∧
    (∃ q', lookupPtr exApp1obsC.heap 0 = some q' ∧ q'.status = .Canceled ∧
      q'.partial_responses = exQ0runC.partial_responses ∧
      q'.response = exQ0runC.response) ∧
    (∃ q', lookupPtr exApp1cSkip.heap 0 = some q' ∧ q'.status = .Canceled ∧
      q'.partial_responses = exQ0cSkip.partial_responses ∧
      q'.response = exQ0cSkip.response) := by
  refine ⟨?_, ?_, ?_⟩
  · exact C4_cancel_mid_stream.1 exApp1run 0 "c1" exApp1chunk
      (@Step.chunk exApp1run 0 exQ0run "c1" rfl rfl rfl)
  · exact C4_cancel_mid_stream.2.1 exApp1runC 0 exApp1obsC exQ0runC
      (@Step.observeCancel exApp1runC 0 exQ0runC rfl rfl rfl) rfl
  · refine C4_cancel_mid_stream.2.2.1 exApp1cSkip [] exApp1cSkip 0 exQ0cSkip ?_
      Steps.refl rfl rfl
    have hid : lookupId exApp1.query_map_ (mkId 0) = some 0 := by
      simp [exApp1, add_query, Application.init, lookupId]
    have hq : lookupPtr exApp1.heap 0 = some exQ0 := rfl
    have hcq := cancel_query_eq_of_found hid hq
    have h := Reachable.step (Reachable.step Reachable.init Step.submit)
      (@Step.cancel exApp1 (mkId 0))
    rw [hcq] at h
    exact Reachable.step h (@Step.skip exApp1c 0 [] exQ0c rfl rfl rfl rfl)

/-- C5: the drain of the worker loop contacts the backend exactly for
the queued jobs whose cancellation flag is clear, in queue order (a
canceled-before-dequeue job is skipped without consuming a slot); and
after submitting any sequence of prompts with no cancellation, the
queue is the submission order and the backend contact order equals it
exactly. -/
theorem C5_fifo_order :
    (∀ (h : List (Nat × Query)) (ps : List Nat) (behav : Nat → BackendResult)
      (cA : Nat → Option Nat), ps.Nodup →
      (process_queries h ps behav cA).2 = ps.filter (contacted h)) ∧
    (∀ (prompts : List String) (behav : Nat → BackendResult) (cA : Nat → Option Nat),
      (submitAll prompts).query_queue_ = List.range prompts.length ∧
      (process_queries (submitAll prompts).heap (submitAll prompts).query_queue_
          behav cA).2 = List.range prompts.length) := by
  constructor
  · intro h ps behav cA hnodup
    exact process_queries_contacts ps h behav cA hnodup
  · intro prompts behav cA
    refine ⟨submitAll_queue prompts, ?_⟩
    have hnodup : (submitAll prompts).query_queue_.Nodup := by
      rw [submitAll_queue]
      exact List.nodup_range _
    rw [process_queries_contacts _ _ behav cA hnodup]
    rw [submitAll_queue]
    apply List.filter_eq_self.2
    intro p hp
    have hreach := submitAll_reachable prompts
    have hinv := reachable_appInv hreach
    have hpq : p ∈ (submitAll prompts).query_queue_ := by
      rw [submitAll_queue]
      exact hp
    obtain ⟨id, hid⟩ := hinv.queue_in_map p hpq
    have hsome := hinv.map_vals_heap (id, p) hid
    obtain ⟨q, hq⟩ := Option.isSome_iff_exists.1 hsome
    have hclean := submitAll_clean prompts (p, q) (lookupPtr_mem hq)
    unfold contacted
    rw [hq]
    simpa using hclean

/-- Witness for C5: three submissions with no cancellation are
contacted in exactly the order 0, 1, 2. -/
theorem C5_fifo_order_witness :
    ([0, 1, 2] : List Nat).Nodup ∧
    (process_queries exApp3.heap [0, 1, 2] exBehavOk exNoCancel).2
      = ([0, 1, 2] : List Nat).filter (contacted exApp3.heap) ∧
    (process_queries exApp3.heap exApp3.query_queue_ exBehavOk exNoCancel).2
      = List.range 3 := by
  refine ⟨by decide, ?_, ?_⟩
  · exact C5_fifo_order.1 exApp3.heap [0, 1, 2] exBehavOk exNoCancel (by decide)
  · exact (C5_fifo_order.2 exPrompts3 exBehavOk exNoCancel).2

/-- C6: every submission returns an identifier never previously issued
(no identifier in the registry equals it), registers the new job under
that identifier in state Queued with the given prompt, and appends its
handle to the queue tail; after submitting N prompts the registry holds
exactly N entries with pairwise-distinct identifiers. -/
theorem C6_submit_fresh_ids :
    (∀ (s : Application) (prompt : String) (ctx : Option Nat), AppInv s →
      (add_query s prompt ctx).1 ∉ s.query_map_.map Prod.fst ∧
      lookupId (add_query s prompt ctx).2.query_map_ (add_query s prompt ctx).1
        = some s.next_ptr ∧
      (∃ q, lookupPtr (add_query s prompt ctx).2.heap s.next_ptr = some q ∧
        q.status = .Queued ∧ q.prompt = prompt) ∧
      (add_query s prompt ctx).2.query_queue_ = s.query_queue_ ++ [s.next_ptr]) ∧
    (∀ prompts : List String,
      (submitAll prompts).query_map_.length = prompts.length ∧
      ((submitAll prompts).query_map_.map Prod.fst).Nodup) := by
  constructor
  · intro s prompt ctx hs
    have hid : (add_query s prompt ctx).1 = mkId s.next_id := rfl
    refine ⟨?_, ?_, ?_, rfl⟩
    · intro hmem
      obtain ⟨e, he, heq⟩ := List.mem_map.1 hmem
      obtain ⟨k, hk, hek⟩ := hs.map_ids e he
      rw [hid] at heq
      have : mkId k = mkId s.next_id := by rw [← heq, hek]
      exact absurd (mkId_injective this ▸ hk) (lt_irrefl _)
    · rw [hid]
      show lookupId ((mkId s.next_id, s.next_ptr) :: s.query_map_) (mkId s.next_id)
        = some s.next_ptr
      simp [lookupId]
    · refine ⟨newQuery (mkId s.next_id) prompt ctx, ?_, rfl, rfl⟩
      show lookupPtr ((s.next_ptr, newQuery (mkId s.next_id) prompt ctx) :: s.heap)
        s.next_ptr = _
      simp [lookupPtr]
  · intro prompts
    constructor
    · rw [submitAll, foldl_add_map_length]
      simp [Application.init]
    · exact (reachable_appInv (submitAll_reachable prompts)).map_keys_nodup

/-- Witness for C6: the first submission against the fresh
application. -/
theorem C6_submit_fresh_ids_witness :
    (add_query Application.init "a" none).1 ∉ Application.init.query_map_.map Prod.fst ∧
    lookupId (add_query Application.init "a" none).2.query_map_
        (add_query Application.init "a" none).1 = some Application.init.next_ptr ∧
    (∃ q, lookupPtr (add_query Application.init "a" none).2.heap
        Application.init.next_ptr = some q ∧ q.status = .Queued ∧ q.prompt = "a") ∧
    (add_query Application.init "a" none).2.query_queue_
      = Application.init.query_queue_ ++ [Application.init.next_ptr] :=
  C6_submit_fresh_ids.1 Application.init "a" none AppInv.init

/-- C7: `get_status` fails with NotFound (returns `none`) exactly when
the identifier is not registered; for a registered identifier it
returns the read-only snapshot — the job's id (equal to the queried
identifier), its status, the response-so-far (concatenation of the
partial chunks, or the final response when Completed — on reachable
states the two coincide), and the error message exactly when Failed.
Being a pure function of the state, it mutates nothing. -/
theorem C7_get_status_snapshot :
    ∀ (s : Application) (query_id : String),
      (lookupId s.query_map_ query_id = none → get_status s query_id = none) ∧
      (∀ p q, lookupId s.query_map_ query_id = some p →
        lookupPtr s.heap p = some q →
        get_status s query_id = some
          { id := q.id, status := q.status,
            response_so_far := if q.status = .Completed then q.response
              else String.join q.partial_responses,
            error_message := if q.status = .Failed then some q.error_message
              else none }) ∧
      (Reachable s → ∀ p q, lookupId s.query_map_ query_id = some p →
        lookupPtr s.heap p = some q →
        ∃ snap, get_status s query_id = some snap ∧ snap.id = query_id ∧
          snap.status = q.status ∧
          snap.response_so_far = String.join q.partial_responses ∧
          snap.error_message = (if q.status = .Failed then some q.error_message
            else none)) := by
  intro s query_id
  refine ⟨?_, ?_, ?_⟩
  · intro h
    unfold get_status
    rw [h]
  · intro p q hp hq
    simp [get_status, hp, hq]
  · intro hr p q hp hq
    have hinv := reachable_appInv hr
    have hsnap : get_status s query_id = some { id := q.id, status := q.status, response_so_far := if q.status = .Completed then q.response else String.join q.partial_responses, error_message := if q.status = .Failed then some q.error_message else none } := by
      simp [get_status, hp, hq]
    refine ⟨_, hsnap, ?_, rfl, ?_, rfl⟩
    · exact hinv.map_id_field (query_id, p) (lookupId_mem hp) q hq
    · by_cases hc : q.status = .Completed
      · simp only [hc, if_pos rfl]
        exact hinv.response_join p q hq
      · simp only [if_neg hc]

/-- Witness for C7: an unknown identifier on the fresh application
yields NotFound; the identifier of the first submitted job yields its
Queued snapshot with empty response. -/
theorem C7_get_status_snapshot_witness :
    (get_status Application.init "unknown-id" = none) ∧
    get_status exApp1 (mkId 0) = some
      { id := exQ0.id, status := exQ0.status,
        response_so_far := if exQ0.status = .Completed then exQ0.response
          else String.join exQ0.partial_responses,
        error_message := if exQ0.status = .Failed then some exQ0.error_message
          else none } := by
  constructor
  · exact (C7_get_status_snapshot Application.init "unknown-id").1 rfl
  · refine (C7_get_status_snapshot exApp1 (mkId 0)).2.1 0 exQ0 ?_ rfl
    simp [exApp1, add_query, Application.init, lookupId]

/-- C8: the aggregate for a recorded metric name reports the count, the
sum (total), the minimum, the maximum (all attained bounds of the
recorded values) and the average, which equals the sum divided by the
count; concretely, recording 10 then 30 for "latency_us" aggregates to
count 2, average 20, min 10, max 30, total 40. -/
theorem C8_metrics_aggregate :
    (∀ (samples : List MetricSample) (n : String) (st : MetricStatistic),
      get_performance_statistics samples n = some st →
      st.metric_name = n ∧
      st.count = (valuesFor samples n).length ∧
      st.total_value = (valuesFor samples n).sum ∧
      st.average_value = st.total_value / (st.count : ℚ) ∧
      (∀ v ∈ valuesFor samples n, st.min_value ≤ v ∧ v ≤ st.max_value) ∧
      st.min_value ∈ valuesFor samples n ∧ st.max_value ∈ valuesFor samples n) ∧
    get_performance_statistics
        (log_performance_metric (log_performance_metric [] "latency_us" 10)
          "latency_us" 30) "latency_us"
      = some { metric_name := "latency_us", average_value := 20, min_value := 10,
               max_value := 30, total_value := 40, count := 2 } := by
  constructor
  · intro samples n st hst
    unfold get_performance_statistics at hst
    rcases hv : valuesFor samples n with _ | ⟨v, vs⟩
    · rw [hv] at hst
      cases hst
    · rw [hv] at hst
      have hst' := Option.some.inj hst
      subst hst'
      refine ⟨rfl, by simp, rfl, ?_, ?_, ?_, ?_⟩
      · simp
      · intro x hx
        rcases List.mem_cons.1 hx with hx | hx
        · subst hx
          exact ⟨(foldl_min_le vs x).1, (foldl_max_ge vs x).1⟩
        · exact ⟨(foldl_min_le vs v).2 x hx, (foldl_max_ge vs v).2 x hx⟩
      · exact foldl_min_mem vs v
      · exact foldl_max_mem vs v
  · have hv : valuesFor
        (log_performance_metric (log_performance_metric [] "latency_us" 10)
          "latency_us" 30) "latency_us" = [10, 30] := by
      simp [valuesFor, log_performance_metric]
    unfold get_performance_statistics
    rw [hv]
    simp only [Option.some.injEq, MetricStatistic.mk.injEq]
    norm_num

/-- Witness for C8: the concrete two-sample aggregate satisfies the
general characterization. -/
theorem C8_metrics_aggregate_witness :
    ({ metric_name := "latency_us", average_value := 20, min_value := 10,
       max_value := 30, total_value := 40, count := 2 } : MetricStatistic).count
      = (valuesFor (log_performance_metric (log_performance_metric [] "latency_us" 10)
          "latency_us" 30) "latency_us").length ∧
    ({ metric_name := "latency_us", average_value := 20, min_value := 10,
       max_value := 30, total_value := 40, count := 2 } : MetricStatistic).average_value
      = (40 : ℚ) / ((2 : Nat) : ℚ) := by
  have h := C8_metrics_aggregate.1
    (log_performance_metric (log_performance_metric [] "latency_us" 10) "latency_us" 30)
    "latency_us"
    { metric_name := "latency_us", average_value := 20, min_value := 10,
      max_value := 30, total_value := 40, count := 2 }
    C8_metrics_aggregate.2
  exact ⟨h.2.1, h.2.2.2.1⟩

/-- Counterexample for C9: in the reachable state after one submission,
the job record has two owning references — the registry map entry and
the queue entry, both `shared_ptr<Query>` copies — so the registry is
not the sole owner and the queue does not hold a mere identifier. -/
theorem C9_queue_ownership_counterexample :
    Reachable exApp1 ∧ ¬ RegistrySoleOwner exApp1 := by
  refine ⟨Reachable.step Reachable.init Step.submit, ?_⟩
  intro h
  have hle := h 0 exQ0 rfl
  have h2 : owningRefs exApp1 0 = 2 := by decide
  rw [h2] at hle
  omega

/-- C9 (amended): in every reachable state, each queue entry is a
shared pointer aliasing a record also referenced by the registry map,
and while a job is queued its record has exactly two owning references
(registry entry plus queue entry); the registry is the sole owner only
of records not currently in the queue. -/
theorem C9_queue_holds_shared_refs :
    ∀ (s : Application), Reachable s → ∀ (p : Nat), p ∈ s.query_queue_ →
      (∃ id, (id, p) ∈ s.query_map_) ∧ owningRefs s p = 2 := by
  intro s hr p hp
  have hinv := reachable_appInv hr
  obtain ⟨id, hid⟩ := hinv.queue_in_map p hp
  refine ⟨⟨id, hid⟩, ?_⟩
  unfold owningRefs
  rw [filterSnd_length]
  have h1 : (s.query_map_.map Prod.snd).count p = 1 :=
    List.count_eq_one_of_mem hinv.map_vals_nodup
      (List.mem_map.2 ⟨(id, p), hid, rfl⟩)
  have h2 : s.query_queue_.count p = 1 :=
    List.count_eq_one_of_mem hinv.queue_nodup hp
  rw [h1, h2]

/-- Witness for the amended C9: the single queued job of the
one-submission state has its two owning references. -/
theorem C9_queue_holds_shared_refs_witness :
    (0 ∈ exApp1.query_queue_) ∧
    (∃ id, (id, 0) ∈ exApp1.query_map_) ∧ owningRefs exApp1 0 = 2 := by
  refine ⟨by decide, ?_⟩
  exact C9_queue_holds_shared_refs exApp1
    (Reachable.step Reachable.init Step.submit) 0 (by decide)

/-- C10: every GET whose target begins with "/query_status/" is
answered with HTTP 200 and a JSON body carrying the extracted query
identifier and the status string the core returned, with no branch on
whether the identifier is known — concretely, the unknown identifier
"unknown-id" still yields 200 with the serialized not-found status. -/
theorem C10_query_status_route :
    (∀ (s : Application) (target : String) (fileExists : String → Bool),
      isQueryStatusTarget target = true →
      handle_get_request s target fileExists =
        { status_code := 200,
          body := .statusJson (extractQueryId target)
                    (get_query_status s (extractQueryId target)) }) ∧
    (∀ (fileExists : String → Bool),
      handle_get_request Application.init "/query_status/unknown-id" fileExists =
        { status_code := 200,
          body := .statusJson "unknown-id" "Query ID not found" }) := by
  constructor
  · intro s target fe h
    unfold handle_get_request
    rw [if_pos h]
  · intro fe
    rfl

/-- Witness for C10: the route equation applied at the unknown-id
target on the fresh application. -/
theorem C10_query_status_route_witness :
    isQueryStatusTarget "/query_status/unknown-id" = true ∧
    handle_get_request Application.init "/query_status/unknown-id" (fun _ => false) =
      { status_code := 200,
        body := .statusJson (extractQueryId "/query_status/unknown-id")
                  (get_query_status Application.init
                    (extractQueryId "/query_status/unknown-id")) } := by
  refine ⟨rfl, ?_⟩
  exact C10_query_status_route.1 Application.init "/query_status/unknown-id"
    (fun _ => false) rfl
